import Mathlib

/-!
Verification of the hook-configuration reconciliation engine of the
cursor-bird editor extension: the hooks.json update logic
(HookManager.updateHooks and setupHooksFileGlobal), the read-only state check
(checkHooksExist and validateHookPaths), the uninstall-time removal of owned
hook entries (uninstall.ts), and the status-counter update performed by the
generated hook payload scripts (generateNodeHookScript).

JSON objects are modelled as ordered association lists, because JavaScript
objects preserve insertion order: assigning to an existing key keeps its
position, assigning to a fresh key appends it at the end.  JavaScript string
truthiness is modelled by encoding a missing or empty `command` as `""`
(both are falsy in every check the source performs on it).
-/

namespace CursorBird

/-- One registered hook callback: the `command` string plus the entry's other
JSON properties, kept as an opaque ordered key-value list.  A missing
`command` is encoded as `""`. -/
structure HookEntry where
  command : String
  extra : List (String × String)
deriving DecidableEq

/-- The persisted hooks document (HooksJson in the source): `version`, the
`hooks` object as an ordered association list from hook-kind name to entry
array, and the remaining top-level fields kept opaque. -/
structure HooksJson where
  version : Int
  hooks : List (String × List HookEntry)
  extra : List (String × String)
deriving DecidableEq

/-- Reading a property of a JavaScript object (association list). -/
def getKey {α : Type} : List (String × α) → String → Option α
  | [], _ => none
  | (k', v) :: rest, k => if k' = k then some v else getKey rest k

/-- Assigning a property of a JavaScript object: overwrite in place when the
key exists, append at the end when it does not. -/
def setKey {α : Type} : List (String × α) → String → α → List (String × α)
  | [], k, v => [(k, v)]
  | (k', v') :: rest, k, v =>
    if k' = k then (k, v) :: rest else (k', v') :: setKey rest k v

/-- JavaScript String.prototype.includes on char lists: substring search. -/
def containsSub (hay needle : List Char) : Bool :=
  match hay with
  | [] => needle.isEmpty
  | _ :: t => needle.isPrefixOf hay || containsSub t needle

/-- JavaScript `s.includes(sub)`: substring containment. -/
def jsIncludes (s sub : String) : Bool :=
  containsSub s.data sub.data

/-- The tool marker, EXTENSION_NAME in the source. -/
def EXTENSION_NAME : String := "cursor-bird"

/-- The ownership test `h.command && h.command.includes(extensionName)`:
an entry is owned when its command is truthy and contains the marker. -/
def isOwned (extensionName : String) (h : HookEntry) : Bool :=
  !(h.command == "") && jsIncludes h.command extensionName

/-- The filter callback used by updateHooks on each of the two known kinds:
keep entries that are not cursor-bird related, and keep cursor-bird entries
only when they match the current script path exactly. -/
def keepEntry (extensionName expected : String) (h : HookEntry) : Bool :=
  (h.command == "") || !(jsIncludes h.command extensionName) || (h.command == expected)

/-- HookManager.updateHooks: initialises the two known hook-kind arrays when
absent, drops owned entries that do not match the current script paths,
appends the current entries when not present, and reports whether the
document was modified.  All other kinds and top-level fields pass through. -/
def updateHooks (hooks : HooksJson) (extensionName startScript stopScript : String) :
    HooksJson × Bool :=
  let h0 := hooks.hooks
  let h1 := if (getKey h0 "beforeSubmitPrompt").isNone then
      setKey h0 "beforeSubmitPrompt" [] else h0
  let h2 := if (getKey h1 "stop").isNone then setKey h1 "stop" [] else h1
  let origStart := (getKey h2 "beforeSubmitPrompt").getD []
  let origStop := (getKey h2 "stop").getD []
  let newStart := origStart.filter (keepEntry extensionName startScript)
  let newStop := origStop.filter (keepEntry extensionName stopScript)
  let h3 := setKey h2 "beforeSubmitPrompt" newStart
  let h4 := setKey h3 "stop" newStop
  let startEx := newStart.any (fun h => h.command == startScript)
  let stopEx := newStop.any (fun h => h.command == stopScript)
  let h5 := if startEx then h4 else
      setKey h4 "beforeSubmitPrompt" (newStart ++ [⟨startScript, []⟩])
  let h6 := if stopEx then h5 else setKey h5 "stop" (newStop ++ [⟨stopScript, []⟩])
  let modified := (newStart.length != origStart.length)
    || (newStop.length != origStop.length) || !startEx || !stopEx
  (⟨hooks.version, h6, hooks.extra⟩, modified)

/-- The three states a hooks file on disk can be in for a reader. -/
inductive HookFile where
  | missing
  | unparsable
  | parsed (doc : HooksJson)
deriving DecidableEq

/-- HookManager.setupHooksFileGlobal: loads the document (fresh skeleton
`{version: 1, hooks: {}}` when the file is missing or does not parse as
JSON), runs updateHooks, and rewrites the file exactly when the modified
flag is true.  Returns the document that is on disk afterwards together
with that flag. -/
def setupHooksFileGlobal (file : HookFile) (extensionName startScript stopScript : String) :
    HooksJson × Bool :=
  let loaded : HooksJson :=
    match file with
    | .missing => ⟨1, [], []⟩
    | .unparsable => ⟨1, [], []⟩
    | .parsed d => d
  updateHooks loaded extensionName startScript stopScript

/-- HookManager.findCursorBirdHooks for a single kind: the first owned
entry of the array, if any. -/
def findOwned (extensionName : String) (l : List HookEntry) : Option HookEntry :=
  l.find? (isOwned extensionName)

/-- HookManager.validateHookPaths: returns the needsUpdate flag.  `fsOnDisk`
models fs.existsSync. -/
def validateHookPaths (fsOnDisk : String → Bool)
    (startHook stopHook : Option HookEntry)
    (expectedStart expectedStop : String) : Bool :=
  let hasStart := startHook.isSome
  let hasStop := stopHook.isSome
  let startIsCorrect := match startHook with
    | some h => h.command == expectedStart
    | none => false
  let stopIsCorrect := match stopHook with
    | some h => h.command == expectedStop
    | none => false
  let startOnDisk := match startHook with
    | some h => if h.command == "" then false else fsOnDisk h.command
    | none => false
  let stopOnDisk := match stopHook with
    | some h => if h.command == "" then false else fsOnDisk h.command
    | none => false
  !hasStart || !hasStop || !startIsCorrect || !stopIsCorrect || !startOnDisk || !stopOnDisk

/-- The result of HookManager.checkHooksExist.  `found` is the source's
`exists` field; a result with `found = false` is the spec's `none` state. -/
structure HookCheckResult where
  found : Bool
  needsUpdate : Bool
deriving DecidableEq

/-- HookManager.checkHooksExist on the global hooks file: a missing or
unparsable file reports not-found (the parse error is caught, not thrown);
otherwise the first owned entry of each known kind is located and validated
against the expected script paths and the filesystem. -/
def checkHooksExist (file : HookFile) (fsOnDisk : String → Bool)
    (extensionName expectedStart expectedStop : String) : HookCheckResult :=
  match file with
  | .missing => ⟨false, false⟩
  | .unparsable => ⟨false, false⟩
  | .parsed doc =>
    let startHook := findOwned extensionName ((getKey doc.hooks "beforeSubmitPrompt").getD [])
    let stopHook := findOwned extensionName ((getKey doc.hooks "stop").getD [])
    if startHook.isSome || stopHook.isSome then
      ⟨true, validateHookPaths fsOnDisk startHook stopHook expectedStart expectedStop⟩
    else ⟨false, false⟩

/-- One kind of the uninstall.ts global hooks cleanup: when the kind is
present and holds owned entries, they are filtered out in place and counted;
otherwise nothing happens. -/
def cleanupKind (extensionName kind : String)
    (hooks : List (String × List HookEntry)) : List (String × List HookEntry) × Nat :=
  match getKey hooks kind with
  | none => (hooks, 0)
  | some l =>
    let toRemove := l.filter (isOwned extensionName)
    if 0 < toRemove.length then
      (setKey hooks kind (l.filter (fun h => !(isOwned extensionName h))), toRemove.length)
    else (hooks, 0)

/-- The uninstall.ts global hooks cleanup (the spec's removeOwnedEntries):
removes owned entries from the two known kinds `beforeSubmitPrompt` and
`stop`; a missing or unparsable file is a caught no-op.  Returns the
resulting document (`none` when nothing was loaded) and the removed count. -/
def removeOwnedEntries (file : HookFile) (extensionName : String) :
    Option HooksJson × Nat :=
  match file with
  | .missing => (none, 0)
  | .unparsable => (none, 0)
  | .parsed doc =>
    let r1 := cleanupKind extensionName "beforeSubmitPrompt" doc.hooks
    let r2 := cleanupKind extensionName "stop" r1.1
    (some ⟨doc.version, r2.1, doc.extra⟩, r1.2 + r2.2)

/-- The status artifact content `{activeCount, lastUpdate}`. -/
structure StatusFileData where
  activeCount : Int
  lastUpdate : Nat
deriving DecidableEq

/-- The status artifact file as the payload script finds it. -/
inductive StatusFile where
  | absent
  | unparsable
  | parsed (d : StatusFileData)
deriving DecidableEq

/-- The count the payload script starts from: `(data.activeCount || 0)` after
reading, where a missing or unparsable file leaves the default 0. -/
def priorCount (file : StatusFile) : Int :=
  match file with
  | .parsed d => d.activeCount
  | _ => 0

/-- The generated payload script (generateNodeHookScript delta) acting on the
status artifact: read or default, apply the signed delta clamped at zero,
then delete the file on zero and atomically rewrite it otherwise. -/
def runStatusHook (file : StatusFile) (delta : Int) (now : Nat) : StatusFile :=
  let newCount := max 0 (priorCount file + delta)
  if newCount = 0 then .absent else .parsed ⟨newCount, now⟩

/-- The per-kind transformation updateHooks performs on a known kind: filter
by keepEntry, then append the current entry when no exact match remains. -/
def normKind (extensionName expected : String) (l : List HookEntry) : List HookEntry :=
  if (l.filter (keepEntry extensionName expected)).any (fun h => h.command == expected)
  then l.filter (keepEntry extensionName expected)
  else l.filter (keepEntry extensionName expected) ++ [⟨expected, []⟩]

/-- The two key-initialisation steps at the top of updateHooks. -/
def initKinds (m : List (String × List HookEntry)) : List (String × List HookEntry) :=
  let m1 := if (getKey m "beforeSubmitPrompt").isNone then setKey m "beforeSubmitPrompt" [] else m
  if (getKey m1 "stop").isNone then setKey m1 "stop" [] else m1

/-- The modified flag updateHooks reports, as a function of the two original
kind arrays. -/
def modFlag (extensionName startScript stopScript : String)
    (l1 l2 : List HookEntry) : Bool :=
  ((l1.filter (keepEntry extensionName startScript)).length != l1.length)
    || ((l2.filter (keepEntry extensionName stopScript)).length != l2.length)
    || !((l1.filter (keepEntry extensionName startScript)).any (fun h => h.command == startScript))
    || !((l2.filter (keepEntry extensionName stopScript)).any (fun h => h.command == stopScript))

/-- Concrete document for the claim C2 witness: each known kind holds one
foreign entry (with an extra property) and one owned-but-stale entry, plus
an unknown kind and an unknown top-level field. -/
def c2doc : HooksJson :=
  ⟨1, [("beforeSubmitPrompt",
        [⟨"/usr/other/tool.sh", [("timeout", "5")]⟩, ⟨"/old/cursor-bird/hook.sh", []⟩]),
       ("stop",
        [⟨"/old/cursor-bird/hook-stop.sh", []⟩, ⟨"/usr/other/tool2.sh", []⟩]),
       ("myKind", [⟨"/keep/me.sh", []⟩])],
   [("other", "keep")]⟩

/-- Concrete document for the claim C3 witness: three owned entries with
differing stale paths in the beforeSubmitPrompt kind. -/
def c3doc : HooksJson :=
  ⟨1, [("beforeSubmitPrompt",
        [⟨"/a/cursor-bird/1.sh", []⟩, ⟨"/a/cursor-bird/2.sh", []⟩,
         ⟨"/a/cursor-bird/3.sh", []⟩]),
       ("stop", [])], []⟩

/-- Concrete document for the claim C4 witness: correct owned entries in
both known kinds. -/
def c4doc : HooksJson :=
  ⟨1, [("beforeSubmitPrompt", [⟨"/e/cursor-bird/hook.sh", []⟩]),
       ("stop", [⟨"/e/cursor-bird/hook-stop.sh", []⟩])], []⟩

/-- Filesystem for the claim C4 witness: exactly the two expected scripts
exist on disk. -/
def c4fs : String → Bool :=
  fun p => p == "/e/cursor-bird/hook.sh" || p == "/e/cursor-bird/hook-stop.sh"

/-- Concrete document for the claim C6 witness: an owned-looking entry in an
unknown kind, one owned and one foreign entry in beforeSubmitPrompt, and an
owned entry in stop. -/
def c6doc : HooksJson :=
  ⟨2, [("afterFileEdit", [⟨"/u/cursor-bird/x.sh", []⟩]),
       ("beforeSubmitPrompt",
        [⟨"/a/cursor-bird/hook.sh", []⟩, ⟨"/b/other.sh", []⟩]),
       ("stop", [⟨"/a/cursor-bird/hook-stop.sh", []⟩])],
   [("other", "1")]⟩

/-- The document the uninstall cleanup produces from c6doc. -/
def c6res : HooksJson :=
  ⟨2, [("afterFileEdit", [⟨"/u/cursor-bird/x.sh", []⟩]),
       ("beforeSubmitPrompt", [⟨"/b/other.sh", []⟩]),
       ("stop", [])],
   [("other", "1")]⟩

/-- Concrete document for the claim C7 witness: a single foreign entry in
each known kind. -/
def c7doc : HooksJson :=
  ⟨1, [("beforeSubmitPrompt", [⟨"/f/one.sh", []⟩]),
       ("stop", [⟨"/g/two.sh", []⟩])], []⟩

theorem getKey_setKey_self {α : Type} (m : List (String × α)) (k : String) (v : α) :
    getKey (setKey m k v) k = some v := by
  induction m with
  | nil => simp [setKey, getKey]
  | cons p rest ih =>
    obtain ⟨k', v'⟩ := p
    by_cases h : k' = k
    · simp [setKey, getKey, h]
    · simp [setKey, getKey, h, ih]

theorem getKey_setKey_ne {α : Type} (m : List (String × α)) {k k' : String}
    (h : k ≠ k') (v : α) : getKey (setKey m k v) k' = getKey m k' := by
  induction m with
  | nil => simp [setKey, getKey, h]
  | cons p rest ih =>
    obtain ⟨k'', v''⟩ := p
    by_cases hk : k'' = k
    · subst hk
      simp [setKey, getKey, h]
    · simp [setKey, getKey, hk, ih]

theorem setKey_eq_of_getKey {α : Type} {m : List (String × α)} {k : String} {v : α}
    (h : getKey m k = some v) : setKey m k v = m := by
  induction m with
  | nil => simp [getKey] at h
  | cons p rest ih =>
    obtain ⟨k', v'⟩ := p
    by_cases hk : k' = k
    · subst hk
      simp [getKey] at h
      simp [setKey, h]
    · simp [getKey, hk] at h
      simp [setKey, hk, ih h]

theorem setKey_setKey_same {α : Type} (m : List (String × α)) (k : String) (v w : α) :
    setKey (setKey m k v) k w = setKey m k w := by
  induction m with
  | nil => simp [setKey]
  | cons p rest ih =>
    obtain ⟨k', v'⟩ := p
    by_cases hk : k' = k
    · simp [setKey, hk]
    · simp [setKey, hk, ih]

theorem setKey_setKey_comm {α : Type} {m : List (String × α)} {k k' : String}
    (hne : k ≠ k') (hk : (getKey m k).isSome) (v w : α) :
    setKey (setKey m k' w) k v = setKey (setKey m k v) k' w := by
  induction m with
  | nil => simp [getKey] at hk
  | cons p rest ih =>
    obtain ⟨a, b⟩ := p
    by_cases hak : a = k
    · subst hak
      simp [setKey, hne.symm, hne]
    · by_cases hak' : a = k'
      · subst hak'
        simp [setKey, hne, hne.symm]
      · simp [getKey, hak] at hk
        simp [setKey, hak, hak', ih hk]

theorem getKey_initKinds_bsp (m : List (String × List HookEntry)) :
    getKey (initKinds m) "beforeSubmitPrompt" =
      some ((getKey m "beforeSubmitPrompt").getD []) := by
  have hne : ("stop" : String) ≠ "beforeSubmitPrompt" := by decide
  unfold initKinds
  cases hb : getKey m "beforeSubmitPrompt" <;>
    cases hs : getKey m "stop" <;>
      simp [hb, hs, getKey_setKey_self, getKey_setKey_ne _ hne, getKey_setKey_ne _ hne.symm]

theorem getKey_initKinds_stop (m : List (String × List HookEntry)) :
    getKey (initKinds m) "stop" = some ((getKey m "stop").getD []) := by
  have hne : ("stop" : String) ≠ "beforeSubmitPrompt" := by decide
  unfold initKinds
  cases hb : getKey m "beforeSubmitPrompt" <;>
    cases hs : getKey m "stop" <;>
      simp [hb, hs, getKey_setKey_self, getKey_setKey_ne _ hne, getKey_setKey_ne _ hne.symm]

theorem getKey_initKinds_ne (m : List (String × List HookEntry)) {k : String}
    (h1 : k ≠ "beforeSubmitPrompt") (h2 : k ≠ "stop") :
    getKey (initKinds m) k = getKey m k := by
  have hbs : ("beforeSubmitPrompt" : String) ≠ "stop" := by decide
  unfold initKinds
  cases hb : getKey m "beforeSubmitPrompt" <;>
    cases hs : getKey m "stop" <;>
      simp [hb, hs, getKey_setKey_ne _ h1.symm, getKey_setKey_ne _ h2.symm,
        getKey_setKey_ne _ hbs, getKey_setKey_ne _ hbs.symm]

theorem initKinds_eq_of_isSome {m : List (String × List HookEntry)}
    (hb : (getKey m "beforeSubmitPrompt").isSome) (hs : (getKey m "stop").isSome) :
    initKinds m = m := by
  obtain ⟨lb, hb⟩ := Option.isSome_iff_exists.mp hb
  obtain ⟨ls, hs⟩ := Option.isSome_iff_exists.mp hs
  simp [initKinds, hb, hs]

theorem keepEntry_expected (extensionName expected : String) :
    keepEntry extensionName expected ⟨expected, []⟩ = true := by
  simp [keepEntry]

theorem normKind_any (extensionName expected : String) (l : List HookEntry) :
    (normKind extensionName expected l).any (fun h => h.command == expected) = true := by
  unfold normKind
  split
  · assumption
  · simp

theorem normKind_filter (extensionName expected : String) (l : List HookEntry) :
    (normKind extensionName expected l).filter (keepEntry extensionName expected) =
      normKind extensionName expected l := by
  rw [List.filter_eq_self]
  intro a ha
  unfold normKind at ha
  split at ha
  · exact List.of_mem_filter ha
  · rcases List.mem_append.mp ha with h | h
    · exact List.of_mem_filter h
    · simp at h
      subst h
      exact keepEntry_expected _ _

theorem jsIncludes_empty_left {sub : String} (h : sub ≠ "") :
    jsIncludes "" sub = false := by
  obtain ⟨d⟩ := sub
  cases d with
  | nil => exact absurd rfl h
  | cons c cs => rfl

theorem command_ne_empty_of_includes {c sub : String} (hsub : sub ≠ "")
    (h : jsIncludes c sub = true) : c ≠ "" := by
  intro hc
  rw [hc, jsIncludes_empty_left hsub] at h
  exact absurd h (by simp)

theorem getKey_updateHooks_bsp (doc : HooksJson) (ext s t : String) :
    getKey (updateHooks doc ext s t).1.hooks "beforeSubmitPrompt" =
      some (normKind ext s ((getKey doc.hooks "beforeSubmitPrompt").getD [])) := by
  have hbs : ("beforeSubmitPrompt" : String) ≠ "stop" := by decide
  cases hb : getKey doc.hooks "beforeSubmitPrompt" <;>
    cases hs : getKey doc.hooks "stop" <;>
      simp only [updateHooks, normKind, hb, hs, Option.isNone_none, Option.isNone_some,
        Option.getD_some, Option.getD_none, List.filter_nil, List.any_nil,
        getKey_setKey_self, getKey_setKey_ne _ hbs, getKey_setKey_ne _ hbs.symm,
        Bool.false_eq_true, if_true, if_false, ite_true, ite_false] <;>
      split_ifs <;>
      simp_all [getKey_setKey_self, getKey_setKey_ne _ hbs, getKey_setKey_ne _ hbs.symm]

theorem getKey_updateHooks_stop (doc : HooksJson) (ext s t : String) :
    getKey (updateHooks doc ext s t).1.hooks "stop" =
      some (normKind ext t ((getKey doc.hooks "stop").getD [])) := by
  have hbs : ("beforeSubmitPrompt" : String) ≠ "stop" := by decide
  cases hb : getKey doc.hooks "beforeSubmitPrompt" <;>
    cases hs : getKey doc.hooks "stop" <;>
      simp only [updateHooks, normKind, hb, hs, Option.isNone_none, Option.isNone_some,
        Option.getD_some, Option.getD_none, List.filter_nil, List.any_nil,
        getKey_setKey_self, getKey_setKey_ne _ hbs, getKey_setKey_ne _ hbs.symm,
        Bool.false_eq_true, if_true, if_false, ite_true, ite_false] <;>
      split_ifs <;>
      simp_all [getKey_setKey_self, getKey_setKey_ne _ hbs, getKey_setKey_ne _ hbs.symm]

theorem getKey_updateHooks_ne (doc : HooksJson) (ext s t : String) {k : String}
    (h1 : k ≠ "beforeSubmitPrompt") (h2 : k ≠ "stop") :
    getKey (updateHooks doc ext s t).1.hooks k = getKey doc.hooks k := by
  have hbs : ("beforeSubmitPrompt" : String) ≠ "stop" := by decide
  cases hb : getKey doc.hooks "beforeSubmitPrompt" <;>
    cases hs : getKey doc.hooks "stop" <;>
      simp only [updateHooks, hb, hs, Option.isNone_none, Option.isNone_some,
        Option.getD_some, Option.getD_none, List.filter_nil, List.any_nil,
        getKey_setKey_self, getKey_setKey_ne _ hbs, getKey_setKey_ne _ hbs.symm,
        getKey_setKey_ne _ h1.symm, getKey_setKey_ne _ h2.symm,
        Bool.false_eq_true, if_true, if_false, ite_true, ite_false] <;>
      split_ifs <;>
      simp_all [getKey_setKey_self, getKey_setKey_ne _ hbs, getKey_setKey_ne _ hbs.symm,
        getKey_setKey_ne _ h1.symm, getKey_setKey_ne _ h2.symm]

theorem updateHooks_version (doc : HooksJson) (ext s t : String) :
    (updateHooks doc ext s t).1.version = doc.version := rfl

theorem updateHooks_extra (doc : HooksJson) (ext s t : String) :
    (updateHooks doc ext s t).1.extra = doc.extra := rfl

theorem updateHooks_modified (doc : HooksJson) (ext s t : String) :
    (updateHooks doc ext s t).2 =
      modFlag ext s t ((getKey doc.hooks "beforeSubmitPrompt").getD [])
        ((getKey doc.hooks "stop").getD []) := by
  have hbs : ("beforeSubmitPrompt" : String) ≠ "stop" := by decide
  cases hb : getKey doc.hooks "beforeSubmitPrompt" <;>
    cases hs : getKey doc.hooks "stop" <;>
      simp [updateHooks, modFlag, hb, hs, getKey_setKey_self,
        getKey_setKey_ne _ hbs, getKey_setKey_ne _ hbs.symm]

theorem updateHooks_fixed {doc : HooksJson} {ext s t : String} {l1 l2 : List HookEntry}
    (hb : getKey doc.hooks "beforeSubmitPrompt" = some l1)
    (hs : getKey doc.hooks "stop" = some l2)
    (hf1 : l1.filter (keepEntry ext s) = l1)
    (he1 : l1.any (fun h => h.command == s) = true)
    (hf2 : l2.filter (keepEntry ext t) = l2)
    (he2 : l2.any (fun h => h.command == t) = true) :
    updateHooks doc ext s t = (doc, false) := by
  simp [updateHooks, hb, hs, hf1, hf2, he1, he2,
    setKey_eq_of_getKey hb, setKey_eq_of_getKey hs]

/-- Claim C1: updateHooks is idempotent — a second run on the document
produced by a first run (with the same expected script paths) reports
modified = false and returns that document unchanged — and the modified
flag, which is exactly the condition under which setupHooksFileGlobal
writes the file back, is false precisely when the reconciled document
equals the input document, so the document is written back only when some
hook-kind array actually changed. -/
theorem claim_c1 (doc : HooksJson) (ext s t : String) :
    (updateHooks (updateHooks doc ext s t).1 ext s t).2 = false ∧
    (updateHooks (updateHooks doc ext s t).1 ext s t).1 = (updateHooks doc ext s t).1 ∧
    ((updateHooks doc ext s t).2 = false ↔ (updateHooks doc ext s t).1 = doc) := by
  have hfix : updateHooks (updateHooks doc ext s t).1 ext s t =
      ((updateHooks doc ext s t).1, false) :=
    updateHooks_fixed (getKey_updateHooks_bsp doc ext s t)
      (getKey_updateHooks_stop doc ext s t)
      (normKind_filter ext s _) (normKind_any ext s _)
      (normKind_filter ext t _) (normKind_any ext t _)
  refine ⟨by rw [hfix], by rw [hfix], ?_, ?_⟩
  · intro h2f
    rw [updateHooks_modified] at h2f
    cases hb : getKey doc.hooks "beforeSubmitPrompt" with
    | none =>
      rw [hb] at h2f
      simp [modFlag] at h2f
    | some l1 =>
      cases hs : getKey doc.hooks "stop" with
      | none =>
        rw [hs] at h2f
        simp [modFlag] at h2f
      | some l2 =>
        rw [hb, hs] at h2f
        simp [modFlag] at h2f
        obtain ⟨⟨⟨hk1, hk2⟩, hex1⟩, hex2⟩ := h2f
        have hf1 : l1.filter (keepEntry ext s) = l1 := List.filter_eq_self.mpr hk1
        have hf2 : l2.filter (keepEntry ext t) = l2 := List.filter_eq_self.mpr hk2
        have ha1 : l1.any (fun h => h.command == s) = true := by
          obtain ⟨x, hx, hxk, hxc⟩ := hex1
          exact List.any_eq_true.mpr ⟨x, hx, by simp [hxc]⟩
        have ha2 : l2.any (fun h => h.command == t) = true := by
          obtain ⟨x, hx, hxk, hxc⟩ := hex2
          exact List.any_eq_true.mpr ⟨x, hx, by simp [hxc]⟩
        exact congrArg Prod.fst (updateHooks_fixed hb hs hf1 ha1 hf2 ha2)
  · intro hout
    have hA := getKey_updateHooks_bsp doc ext s t
    have hB := getKey_updateHooks_stop doc ext s t
    rw [hout] at hA hB
    cases hb : getKey doc.hooks "beforeSubmitPrompt" with
    | none =>
      rw [hb] at hA
      exact absurd hA (by simp)
    | some l1 =>
      cases hs : getKey doc.hooks "stop" with
      | none =>
        rw [hs] at hB
        exact absurd hB (by simp)
      | some l2 =>
        rw [hb] at hA
        rw [hs] at hB
        simp only [Option.getD_some, Option.some.injEq] at hA hB
        have hf1 : l1.filter (keepEntry ext s) = l1 := by
          conv_lhs => rw [hA]
          rw [normKind_filter]
          exact hA.symm
        have ha1 : l1.any (fun h => h.command == s) = true := by
          rw [hA]
          exact normKind_any ext s l1
        have hf2 : l2.filter (keepEntry ext t) = l2 := by
          conv_lhs => rw [hB]
          rw [normKind_filter]
          exact hB.symm
        have ha2 : l2.any (fun h => h.command == t) = true := by
          rw [hB]
          exact normKind_any ext t l2
        rw [updateHooks_fixed hb hs hf1 ha1 hf2 ha2]

theorem normKind_foreign_stale (ext s : String) (f o : HookEntry)
    (hf : jsIncludes f.command ext = false)
    (ho : jsIncludes o.command ext = true)
    (hoc : o.command ≠ "")
    (hos : o.command ≠ s)
    (hfs : f.command ≠ s) :
    normKind ext s [f, o] = [f, ⟨s, []⟩] ∧ normKind ext s [o, f] = [f, ⟨s, []⟩] := by
  have kf : keepEntry ext s f = true := by simp [keepEntry, hf]
  have ko : keepEntry ext s o = false := by
    simp [keepEntry, ho, beq_eq_false_iff_ne.mpr hoc, beq_eq_false_iff_ne.mpr hos]
  have af : (f.command == s) = false := beq_eq_false_iff_ne.mpr hfs
  constructor <;> simp [normKind, List.filter_cons, kf, ko, af]

/-- Claim C2: on a document whose two known kinds each hold one foreign entry
(command not containing the marker) and one owned-but-stale entry, in either
order, updateHooks leaves exactly the foreign entry (with all its extra
properties) plus exactly one owned entry pointing at the expected path in
each kind, and changes no other hook kind, no other top-level field, and
not the version. -/
theorem claim_c2 (doc : HooksJson) (s t : String) (f1 o1 f2 o2 : HookEntry)
    (hb : getKey doc.hooks "beforeSubmitPrompt" = some [f1, o1] ∨
      getKey doc.hooks "beforeSubmitPrompt" = some [o1, f1])
    (hstp : getKey doc.hooks "stop" = some [f2, o2] ∨
      getKey doc.hooks "stop" = some [o2, f2])
    (hforeign1 : jsIncludes f1.command EXTENSION_NAME = false)
    (hforeign2 : jsIncludes f2.command EXTENSION_NAME = false)
    (howned1 : jsIncludes o1.command EXTENSION_NAME = true)
    (hstale1 : o1.command ≠ s)
    (howned2 : jsIncludes o2.command EXTENSION_NAME = true)
    (hstale2 : o2.command ≠ t)
    (hms : jsIncludes s EXTENSION_NAME = true)
    (hmt : jsIncludes t EXTENSION_NAME = true) :
    getKey (updateHooks doc EXTENSION_NAME s t).1.hooks "beforeSubmitPrompt" =
      some [f1, ⟨s, []⟩] ∧
    getKey (updateHooks doc EXTENSION_NAME s t).1.hooks "stop" = some [f2, ⟨t, []⟩] ∧
    (∀ k, k ≠ "beforeSubmitPrompt" → k ≠ "stop" →
      getKey (updateHooks doc EXTENSION_NAME s t).1.hooks k = getKey doc.hooks k) ∧
    (updateHooks doc EXTENSION_NAME s t).1.version = doc.version ∧
    (updateHooks doc EXTENSION_NAME s t).1.extra = doc.extra := by
  have hEne : EXTENSION_NAME ≠ "" := by decide
  have ho1c : o1.command ≠ "" := command_ne_empty_of_includes hEne howned1
  have ho2c : o2.command ≠ "" := command_ne_empty_of_includes hEne howned2
  have hf1s : f1.command ≠ s := by
    intro h
    rw [h, hms] at hforeign1
    simp at hforeign1
  have hf2t : f2.command ≠ t := by
    intro h
    rw [h, hmt] at hforeign2
    simp at hforeign2
  obtain ⟨n1a, n1b⟩ :=
    normKind_foreign_stale EXTENSION_NAME s f1 o1 hforeign1 howned1 ho1c hstale1 hf1s
  obtain ⟨n2a, n2b⟩ :=
    normKind_foreign_stale EXTENSION_NAME t f2 o2 hforeign2 howned2 ho2c hstale2 hf2t
  refine ⟨?_, ?_, ?_, updateHooks_version doc EXTENSION_NAME s t,
    updateHooks_extra doc EXTENSION_NAME s t⟩
  · rcases hb with hb | hb <;> rw [getKey_updateHooks_bsp, hb] <;> simp [n1a, n1b]
  · rcases hstp with hstp | hstp <;> rw [getKey_updateHooks_stop, hstp] <;> simp [n2a, n2b]
  · intro k hk1 hk2
    exact getKey_updateHooks_ne doc EXTENSION_NAME s t hk1 hk2

theorem normKind_owned_mem {ext e : String} (hext : ext ≠ "") {l : List HookEntry}
    {h : HookEntry} (hm : h ∈ normKind ext e l)
    (hown : jsIncludes h.command ext = true) : h.command = e := by
  have hc : h.command ≠ "" := command_ne_empty_of_includes hext hown
  unfold normKind at hm
  split at hm
  · have hk := List.of_mem_filter hm
    simp [keepEntry, hown, beq_eq_false_iff_ne.mpr hc] at hk
    exact hk
  · rcases List.mem_append.mp hm with hm | hm
    · have hk := List.of_mem_filter hm
      simp [keepEntry, hown, beq_eq_false_iff_ne.mpr hc] at hk
      exact hk
    · simp at hm
      rw [hm]

/-- Claim C3: after updateHooks, every owned entry (command containing the
marker) in each of the two known kinds has exactly the expected command for
its kind; and on a kind holding three owned entries with differing stale
paths, the resulting kind array is exactly the single entry pointing at the
expected path. -/
theorem claim_c3 (doc : HooksJson) (ext s t : String) (hext : ext ≠ "") :
    (∀ l', getKey (updateHooks doc ext s t).1.hooks "beforeSubmitPrompt" = some l' →
      ∀ h ∈ l', jsIncludes h.command ext = true → h.command = s) ∧
    (∀ l', getKey (updateHooks doc ext s t).1.hooks "stop" = some l' →
      ∀ h ∈ l', jsIncludes h.command ext = true → h.command = t) ∧
    (∀ o1 o2 o3 : HookEntry,
      getKey doc.hooks "beforeSubmitPrompt" = some [o1, o2, o3] →
      jsIncludes o1.command ext = true → o1.command ≠ s →
      jsIncludes o2.command ext = true → o2.command ≠ s →
      jsIncludes o3.command ext = true → o3.command ≠ s →
      getKey (updateHooks doc ext s t).1.hooks "beforeSubmitPrompt" = some [⟨s, []⟩]) := by
  refine ⟨?_, ?_, ?_⟩
  · intro l' hl' h hm hown
    rw [getKey_updateHooks_bsp] at hl'
    injection hl' with hl'
    subst hl'
    exact normKind_owned_mem hext hm hown
  · intro l' hl' h hm hown
    rw [getKey_updateHooks_stop] at hl'
    injection hl' with hl'
    subst hl'
    exact normKind_owned_mem hext hm hown
  · intro o1 o2 o3 hb ho1 ho1s ho2 ho2s ho3 ho3s
    have ko1 : keepEntry ext s o1 = false := by
      simp [keepEntry, ho1,
        beq_eq_false_iff_ne.mpr (command_ne_empty_of_includes hext ho1),
        beq_eq_false_iff_ne.mpr ho1s]
    have ko2 : keepEntry ext s o2 = false := by
      simp [keepEntry, ho2,
        beq_eq_false_iff_ne.mpr (command_ne_empty_of_includes hext ho2),
        beq_eq_false_iff_ne.mpr ho2s]
    have ko3 : keepEntry ext s o3 = false := by
      simp [keepEntry, ho3,
        beq_eq_false_iff_ne.mpr (command_ne_empty_of_includes hext ho3),
        beq_eq_false_iff_ne.mpr ho3s]
    rw [getKey_updateHooks_bsp, hb]
    simp [normKind, List.filter_cons, ko1, ko2, ko3]

/-- Claim C4: on a document holding an owned entry in each of the two known
kinds, checkHooksExist reports found and its needsUpdate flag is false
(the spec's `valid` state) exactly when both owned commands equal the
expected paths and both referenced files exist; in particular an exactly
correct command whose file is absent yields needsUpdate = true (the spec's
`stale`), not valid. -/
theorem claim_c4 (doc : HooksJson) (fsOnDisk : String → Bool) (s t : String)
    (sh th : HookEntry)
    (hsh : findOwned EXTENSION_NAME ((getKey doc.hooks "beforeSubmitPrompt").getD []) =
      some sh)
    (hth : findOwned EXTENSION_NAME ((getKey doc.hooks "stop").getD []) = some th) :
    (checkHooksExist (.parsed doc) fsOnDisk EXTENSION_NAME s t).found = true ∧
    ((checkHooksExist (.parsed doc) fsOnDisk EXTENSION_NAME s t).needsUpdate = false ↔
      (sh.command = s ∧ th.command = t ∧
        fsOnDisk sh.command = true ∧ fsOnDisk th.command = true)) ∧
    (sh.command = s → fsOnDisk s = false →
      (checkHooksExist (.parsed doc) fsOnDisk EXTENSION_NAME s t).needsUpdate = true) := by
  have hosh : isOwned EXTENSION_NAME sh = true := List.find?_some hsh
  have hoth : isOwned EXTENSION_NAME th = true := List.find?_some hth
  have hshc : (sh.command == "") = false := by
    cases hc : (sh.command == "") with
    | false => rfl
    | true => simp [isOwned, hc] at hosh
  have hthc : (th.command == "") = false := by
    cases hc : (th.command == "") with
    | false => rfl
    | true => simp [isOwned, hc] at hoth
  refine ⟨by simp [checkHooksExist, hsh, hth], ?_, ?_⟩
  · simp [checkHooksExist, validateHookPaths, hsh, hth, hshc, hthc]
    tauto
  · intro h1 h2
    rw [← h1] at h2
    simp [checkHooksExist, validateHookPaths, hsh, hth, hshc, hthc, h2]

/-- Claim C5: an existing hooks file whose content does not parse as JSON
makes checkHooksExist report the not-found state (the parse error is caught,
never thrown to the caller) and makes the uninstall cleanup a no-op that
removes nothing. -/
theorem claim_c5 (fsOnDisk : String → Bool) (ext s t : String) :
    checkHooksExist .unparsable fsOnDisk ext s t = ⟨false, false⟩ ∧
    removeOwnedEntries .unparsable ext = (none, 0) :=
  ⟨rfl, rfl⟩

/-- Claim C6 counterexample: an owned entry sitting in a hook kind outside
the two known kinds (here `afterFileEdit`) is NOT removed by the uninstall
cleanup — the document is returned unchanged with removedCount 0 — so the
claim that every marker-containing entry in every hook kind is removed is
false. -/
theorem claim_c6_counterexample :
    isOwned EXTENSION_NAME ⟨"/x/cursor-bird/hook.sh", []⟩ = true ∧
    removeOwnedEntries
      (.parsed ⟨1, [("afterFileEdit", [⟨"/x/cursor-bird/hook.sh", []⟩])], []⟩)
      EXTENSION_NAME =
      (some ⟨1, [("afterFileEdit", [⟨"/x/cursor-bird/hook.sh", []⟩])], []⟩, 0) := by
  exact ⟨by decide, rfl⟩

theorem cleanupKind_spec (ext kind : String) (m : List (String × List HookEntry)) :
    getKey (cleanupKind ext kind m).1 kind =
      (getKey m kind).map (fun l => l.filter (fun h => !(isOwned ext h))) ∧
    (cleanupKind ext kind m).2 =
      (((getKey m kind).getD []).filter (isOwned ext)).length ∧
    (∀ k, k ≠ kind → getKey (cleanupKind ext kind m).1 k = getKey m k) := by
  cases hm : getKey m kind with
  | none => simp [cleanupKind, hm]
  | some l =>
    by_cases h0 : 0 < (l.filter (isOwned ext)).length
    · refine ⟨?_, ?_, ?_⟩
      · simp [cleanupKind, hm, h0, getKey_setKey_self]
      · simp [cleanupKind, hm, h0]
      · intro k hk
        simp [cleanupKind, hm, h0, getKey_setKey_ne _ (Ne.symm hk)]
    · have hnil : l.filter (isOwned ext) = [] := by
        rw [← List.length_eq_zero]
        omega
      have hall : l.filter (fun h => !(isOwned ext h)) = l := by
        rw [List.filter_eq_self]
        intro a ha
        cases how : isOwned ext a with
        | false => rfl
        | true =>
          have : a ∈ l.filter (isOwned ext) := List.mem_filter.mpr ⟨ha, how⟩
          rw [hnil] at this
          simp at this
      refine ⟨?_, ?_, ?_⟩
      · simp [cleanupKind, hm, h0, hall]
      · simp [cleanupKind, hm, h0, hnil]
      · intro k hk
        simp [cleanupKind, hm, h0]

/-- Claim C6 (amended): the uninstall cleanup removes every marker-containing
entry from the two known kinds `beforeSubmitPrompt` and `stop` only,
preserving their non-owned entries in order, every other hook kind, the
version, and all other top-level fields verbatim; entries containing the
marker in unknown hook kinds are kept.  The removed count is the number of
owned entries in the two known kinds. -/
theorem claim_c6_amended (doc : HooksJson) (ext : String) :
    (∀ d, (removeOwnedEntries (.parsed doc) ext).1 = some d →
      getKey d.hooks "beforeSubmitPrompt" =
        (getKey doc.hooks "beforeSubmitPrompt").map
          (fun l => l.filter (fun h => !(isOwned ext h))) ∧
      getKey d.hooks "stop" =
        (getKey doc.hooks "stop").map (fun l => l.filter (fun h => !(isOwned ext h))) ∧
      d.version = doc.version ∧ d.extra = doc.extra ∧
      (∀ k, k ≠ "beforeSubmitPrompt" → k ≠ "stop" →
        getKey d.hooks k = getKey doc.hooks k)) ∧
    (removeOwnedEntries (.parsed doc) ext).2 =
      (((getKey doc.hooks "beforeSubmitPrompt").getD []).filter (isOwned ext)).length +
      (((getKey doc.hooks "stop").getD []).filter (isOwned ext)).length := by
  have hbs : ("beforeSubmitPrompt" : String) ≠ "stop" := by decide
  obtain ⟨g1, c1, f1⟩ := cleanupKind_spec ext "beforeSubmitPrompt" doc.hooks
  obtain ⟨g2, c2, f2⟩ :=
    cleanupKind_spec ext "stop" (cleanupKind ext "beforeSubmitPrompt" doc.hooks).1
  constructor
  · intro d hd
    have hde : d = ⟨doc.version,
        (cleanupKind ext "stop" (cleanupKind ext "beforeSubmitPrompt" doc.hooks).1).1,
        doc.extra⟩ := by
      simp [removeOwnedEntries] at hd
      exact hd.symm
    subst hde
    refine ⟨?_, ?_, rfl, rfl, ?_⟩
    · rw [show (⟨doc.version,
        (cleanupKind ext "stop" (cleanupKind ext "beforeSubmitPrompt" doc.hooks).1).1,
        doc.extra⟩ : HooksJson).hooks =
          (cleanupKind ext "stop" (cleanupKind ext "beforeSubmitPrompt" doc.hooks).1).1
        from rfl]
      rw [f2 _ hbs, g1]
    · rw [show (⟨doc.version,
        (cleanupKind ext "stop" (cleanupKind ext "beforeSubmitPrompt" doc.hooks).1).1,
        doc.extra⟩ : HooksJson).hooks =
          (cleanupKind ext "stop" (cleanupKind ext "beforeSubmitPrompt" doc.hooks).1).1
        from rfl]
      rw [g2, f1 _ hbs.symm]
    · intro k hk1 hk2
      rw [show (⟨doc.version,
        (cleanupKind ext "stop" (cleanupKind ext "beforeSubmitPrompt" doc.hooks).1).1,
        doc.extra⟩ : HooksJson).hooks =
          (cleanupKind ext "stop" (cleanupKind ext "beforeSubmitPrompt" doc.hooks).1).1
        from rfl]
      rw [f2 _ hk2, f1 _ hk1]
  · show (cleanupKind ext "beforeSubmitPrompt" doc.hooks).2 +
      (cleanupKind ext "stop" (cleanupKind ext "beforeSubmitPrompt" doc.hooks).1).2 = _
    rw [c1, c2, f1 _ hbs.symm]

/-- Claim C7 counterexample: on a document whose beforeSubmitPrompt kind
holds an already-correct owned entry followed by a foreign entry, updateHooks
keeps both in place, so the resulting array has the owned entry (command
contains the marker) BEFORE the foreign entry — foreign entries do not come
first. -/
theorem claim_c7_counterexample :
    getKey (updateHooks
        ⟨1, [("beforeSubmitPrompt",
              [⟨"/ext/cursor-bird/hook.sh", []⟩, ⟨"/zzz/other.sh", []⟩]),
             ("stop", [⟨"/ext/cursor-bird/hook-stop.sh", []⟩])], []⟩
        EXTENSION_NAME "/ext/cursor-bird/hook.sh" "/ext/cursor-bird/hook-stop.sh").1.hooks
      "beforeSubmitPrompt" =
      some [⟨"/ext/cursor-bird/hook.sh", []⟩, ⟨"/zzz/other.sh", []⟩] ∧
    jsIncludes "/ext/cursor-bird/hook.sh" EXTENSION_NAME = true ∧
    jsIncludes "/zzz/other.sh" EXTENSION_NAME = false := by
  exact ⟨by decide, by decide, by decide⟩

theorem normKind_foreign_filter (ext e : String) (hme : jsIncludes e ext = true)
    (l : List HookEntry) :
    (normKind ext e l).filter (fun h => !(jsIncludes h.command ext)) =
      l.filter (fun h => !(jsIncludes h.command ext)) := by
  have key : (l.filter (keepEntry ext e)).filter (fun h => !(jsIncludes h.command ext)) =
      l.filter (fun h => !(jsIncludes h.command ext)) := by
    rw [List.filter_filter]
    apply List.filter_congr
    intro a ha
    cases hI : jsIncludes a.command ext with
    | false => simp [keepEntry, hI]
    | true => simp [hI]
  unfold normKind
  split
  · exact key
  · rw [List.filter_append]
    simp [hme, key]

/-- Claim C7 (amended): in each known hook-kind array produced by
updateHooks, the foreign entries appear in their original relative order;
the kept entries (foreign entries, plus any owned entry already equal to
the expected path) retain their original relative positions, and a newly
added owned entry is appended at the end — so an already-correct owned
entry may remain BEFORE foreign entries rather than after them. -/
theorem claim_c7_amended (doc : HooksJson) (ext s t : String)
    (hms : jsIncludes s ext = true) (hmt : jsIncludes t ext = true) :
    (∀ l1 l1', getKey doc.hooks "beforeSubmitPrompt" = some l1 →
      getKey (updateHooks doc ext s t).1.hooks "beforeSubmitPrompt" = some l1' →
      l1'.filter (fun h => !(jsIncludes h.command ext)) =
        l1.filter (fun h => !(jsIncludes h.command ext)) ∧
      (l1' = l1.filter (keepEntry ext s) ∨
        l1' = l1.filter (keepEntry ext s) ++ [⟨s, []⟩])) ∧
    (∀ l2 l2', getKey doc.hooks "stop" = some l2 →
      getKey (updateHooks doc ext s t).1.hooks "stop" = some l2' →
      l2'.filter (fun h => !(jsIncludes h.command ext)) =
        l2.filter (fun h => !(jsIncludes h.command ext)) ∧
      (l2' = l2.filter (keepEntry ext t) ∨
        l2' = l2.filter (keepEntry ext t) ++ [⟨t, []⟩])) := by
  constructor
  · intro l1 l1' hb h'
    rw [getKey_updateHooks_bsp, hb] at h'
    simp only [Option.getD_some, Option.some.injEq] at h'
    subst h'
    refine ⟨normKind_foreign_filter ext s hms l1, ?_⟩
    unfold normKind
    split
    · exact Or.inl rfl
    · exact Or.inr rfl
  · intro l2 l2' hstp h'
    rw [getKey_updateHooks_stop, hstp] at h'
    simp only [Option.getD_some, Option.some.injEq] at h'
    subst h'
    refine ⟨normKind_foreign_filter ext t hmt l2, ?_⟩
    unfold normKind
    split
    · exact Or.inl rfl
    · exact Or.inr rfl

/-- Claim C8: a status-counter update whose resulting clamped count is zero
deletes the status artifact rather than rewriting it, and a strictly
positive resulting count rewrites the artifact with exactly that count. -/
theorem claim_c8 (file : StatusFile) (delta : Int) (now : Nat) :
    (max 0 (priorCount file + delta) = 0 → runStatusHook file delta now = .absent) ∧
    (0 < max 0 (priorCount file + delta) →
      runStatusHook file delta now = .parsed ⟨max 0 (priorCount file + delta), now⟩) := by
  constructor
  · intro h
    simp [runStatusHook, h]
  · intro h
    simp only [runStatusHook]
    rw [if_neg (ne_of_gt h)]

/-- Claim C8 witness: the spec's scenario — a counter file holding
activeCount 1 receives the stop event delta −1, and the status file is
deleted rather than rewritten. -/
theorem claim_c8_witness :
    runStatusHook (.parsed ⟨1, 41⟩) (-1) 42 = .absent :=
  (claim_c8 (.parsed ⟨1, 41⟩) (-1) 42).1 (by decide)

/-- Claim C9: the count a status-counter update computes is the maximum of 0
and the prior count (0 for a missing or unparsable file) plus the signed
delta, so every persisted activeCount is non-negative — in fact strictly
positive, since a zero result deletes the file instead. -/
theorem claim_c9 (file : StatusFile) (delta : Int) (now : Nat) :
    priorCount .absent = 0 ∧ priorCount .unparsable = 0 ∧
    (∀ d, runStatusHook file delta now = .parsed d →
      d.activeCount = max 0 (priorCount file + delta) ∧ 0 ≤ d.activeCount) ∧
    (runStatusHook file delta now = .absent → max 0 (priorCount file + delta) = 0) := by
  refine ⟨rfl, rfl, ?_, ?_⟩
  · intro d hd
    simp only [runStatusHook] at hd
    split at hd
    · simp at hd
    · injection hd with hd
      rw [← hd]
      exact ⟨rfl, le_max_left 0 _⟩
  · intro habs
    simp only [runStatusHook] at habs
    split at habs
    · assumption
    · simp at habs

/-- Claim C9 witness: a prior count of 3 with delta −1 persists activeCount
2 = max 0 (3 − 1), which is non-negative. -/
theorem claim_c9_witness :
    (2 : Int) = max 0 (priorCount (.parsed ⟨3, 7⟩) + (-1)) ∧ (0 : Int) ≤ 2 :=
  (claim_c9 (.parsed ⟨3, 7⟩) (-1) 8).2.2.1 ⟨2, 8⟩ (by decide)

/-- Claim C10: an existing hooks file whose content fails to parse makes
setupHooksFileGlobal reconcile from the fresh skeleton {version 1, hooks {}}:
it necessarily reports modified = true (so the file is written back) and the
resulting document holds exactly the two owned entries, one per known kind,
and nothing else — whatever the unparsable file held is discarded. -/
theorem claim_c10 (ext s t : String) :
    setupHooksFileGlobal .unparsable ext s t =
      (⟨1, [("beforeSubmitPrompt", [⟨s, []⟩]), ("stop", [⟨t, []⟩])], []⟩, true) := by
  rfl

/-- Claim C2 witness: the non-destructive merge evaluated on c2doc — the
foreign entries survive unchanged (extra properties included), one owned
entry per kind points at the expected path, and the unknown kind and the
extra top-level fields are untouched. -/
theorem claim_c2_witness :
    getKey (updateHooks c2doc EXTENSION_NAME
        "/new/cursor-bird/hook.sh" "/new/cursor-bird/hook-stop.sh").1.hooks
        "beforeSubmitPrompt" =
      some [⟨"/usr/other/tool.sh", [("timeout", "5")]⟩, ⟨"/new/cursor-bird/hook.sh", []⟩] ∧
    getKey (updateHooks c2doc EXTENSION_NAME
        "/new/cursor-bird/hook.sh" "/new/cursor-bird/hook-stop.sh").1.hooks "stop" =
      some [⟨"/usr/other/tool2.sh", []⟩, ⟨"/new/cursor-bird/hook-stop.sh", []⟩] ∧
    getKey (updateHooks c2doc EXTENSION_NAME
        "/new/cursor-bird/hook.sh" "/new/cursor-bird/hook-stop.sh").1.hooks "myKind" =
      getKey c2doc.hooks "myKind" ∧
    (updateHooks c2doc EXTENSION_NAME
        "/new/cursor-bird/hook.sh" "/new/cursor-bird/hook-stop.sh").1.extra = c2doc.extra := by
  have h := claim_c2 c2doc "/new/cursor-bird/hook.sh" "/new/cursor-bird/hook-stop.sh"
    ⟨"/usr/other/tool.sh", [("timeout", "5")]⟩ ⟨"/old/cursor-bird/hook.sh", []⟩
    ⟨"/usr/other/tool2.sh", []⟩ ⟨"/old/cursor-bird/hook-stop.sh", []⟩
    (Or.inl rfl) (Or.inr rfl) (by decide) (by decide) (by decide) (by decide)
    (by decide) (by decide) (by decide) (by decide)
  exact ⟨h.1, h.2.1, h.2.2.1 "myKind" (by decide) (by decide), h.2.2.2.2⟩

/-- Claim C3 witness: three owned entries with differing stale paths
collapse to the single owned entry at the expected path. -/
theorem claim_c3_witness :
    getKey (updateHooks c3doc "cursor-bird"
        "/new/cursor-bird/hook.sh" "/new/cursor-bird/hook-stop.sh").1.hooks
        "beforeSubmitPrompt" =
      some [⟨"/new/cursor-bird/hook.sh", []⟩] :=
  (claim_c3 c3doc "cursor-bird" "/new/cursor-bird/hook.sh" "/new/cursor-bird/hook-stop.sh"
      (by decide)).2.2
    ⟨"/a/cursor-bird/1.sh", []⟩ ⟨"/a/cursor-bird/2.sh", []⟩ ⟨"/a/cursor-bird/3.sh", []⟩
    rfl (by decide) (by decide) (by decide) (by decide) (by decide) (by decide)

/-- Claim C4 witness: both owned entries exactly correct and both files on
disk — checkHooksExist reports found with needsUpdate = false (valid). -/
theorem claim_c4_witness :
    (checkHooksExist (.parsed c4doc) c4fs EXTENSION_NAME
      "/e/cursor-bird/hook.sh" "/e/cursor-bird/hook-stop.sh").found = true ∧
    (checkHooksExist (.parsed c4doc) c4fs EXTENSION_NAME
      "/e/cursor-bird/hook.sh" "/e/cursor-bird/hook-stop.sh").needsUpdate = false := by
  have h := claim_c4 c4doc c4fs "/e/cursor-bird/hook.sh" "/e/cursor-bird/hook-stop.sh"
    ⟨"/e/cursor-bird/hook.sh", []⟩ ⟨"/e/cursor-bird/hook-stop.sh", []⟩
    (by decide) (by decide)
  exact ⟨h.1, h.2.1.mpr ⟨rfl, rfl, by decide, by decide⟩⟩

/-- Claim C6 (amended) witness: on c6doc the cleanup removes the two owned
entries of the known kinds (removedCount 2) while the owned-looking entry in
the unknown kind afterFileEdit is preserved. -/
theorem claim_c6_amended_witness :
    getKey c6res.hooks "afterFileEdit" = getKey c6doc.hooks "afterFileEdit" ∧
    (removeOwnedEntries (.parsed c6doc) "cursor-bird").2 = 2 := by
  have h := claim_c6_amended c6doc "cursor-bird"
  exact ⟨(h.1 c6res (by decide)).2.2.2.2 "afterFileEdit" (by decide) (by decide),
    h.2.trans (by decide)⟩

/-- Claim C7 (amended) witness: on c7doc the produced beforeSubmitPrompt
array is the kept foreign entry followed by the newly appended owned
entry. -/
theorem claim_c7_amended_witness :
    ([⟨"/f/one.sh", []⟩, ⟨"/new/cursor-bird/hook.sh", []⟩] : List HookEntry) =
        [(⟨"/f/one.sh", []⟩ : HookEntry)].filter
          (keepEntry "cursor-bird" "/new/cursor-bird/hook.sh") ∨
    ([⟨"/f/one.sh", []⟩, ⟨"/new/cursor-bird/hook.sh", []⟩] : List HookEntry) =
        [(⟨"/f/one.sh", []⟩ : HookEntry)].filter
          (keepEntry "cursor-bird" "/new/cursor-bird/hook.sh") ++
          [⟨"/new/cursor-bird/hook.sh", []⟩] :=
  ((claim_c7_amended c7doc "cursor-bird"
      "/new/cursor-bird/hook.sh" "/stp/cursor-bird/stop.sh" (by decide) (by decide)).1
    [⟨"/f/one.sh", []⟩] [⟨"/f/one.sh", []⟩, ⟨"/new/cursor-bird/hook.sh", []⟩]
    rfl (by decide)).2

end CursorBird
